import Mathlib

/-!
Verification of the eventql LSM partition writer and MapReduce reduce-task
scheduler, shallowly embedded from
`src/zbase/core/LSMPartitionWriter.cc` and
`src/zbase/mapreduce/tasks/ReduceTask.cc`.

Record ids (SHA1 hashes) are modelled as `Nat`, record versions as `Nat`,
filenames as `String`.  The on-disk sidecar index of an LSM table is kept
inside the table descriptor, standing for the `<filename>.idx` file.
-/

namespace zbase

/-- A versioned record, from `RecordRef`.  The opaque payload bytes are not
modelled: no operation treated here inspects them. -/
structure RecordRef where
  record_id : Nat
  record_version : Nat
  is_update : Bool
deriving Repr, DecidableEq

/-- Modelled from the spec: `RecordArena` (spec section 4.1), an in-memory
mapping `record_id -> record` holding pending records; its source is not part
of the given fragment.  Represented as a list of records with pairwise
distinct ids. -/
abbrev RecordArena := List RecordRef

/-- Modelled from the spec: `fetch_record_version(record_id) -> version`
(0 if absent). -/
def RecordArena.fetchRecordVersion : RecordArena → Nat → Nat
  | [], _ => 0
  | r :: rest, id =>
    if r.record_id = id then r.record_version else RecordArena.fetchRecordVersion rest id

/-- Modelled from the spec: `insert(record) -> bool` returns true iff the
record replaced nothing or replaced an older version; inserts with
`version <= existing version` are no-ops. -/
def RecordArena.insertRecord (a : RecordArena) (r : RecordRef) : RecordArena × Bool :=
  if RecordArena.fetchRecordVersion a r.record_id < r.record_version then
    (r :: a.filter (fun x => x.record_id != r.record_id), true)
  else
    (a, false)

/-- Modelled from the spec: `size() -> count of distinct record_ids held`. -/
def RecordArena.size (a : RecordArena) : Nat := a.length

/-- An in-memory record-id -> version map (`HashMap<SHA1Hash, uint64_t>`),
also the content of an on-disk `.idx` sidecar file. -/
abbrev RecordVersionMap := List (Nat × Nat)

/-- Map lookup. -/
def RecordVersionMap.get : RecordVersionMap → Nat → Option Nat
  | [], _ => none
  | (k, v) :: rest, id => if k = id then some v else RecordVersionMap.get rest id

/-- `HashMap::emplace`: insert only if the key is absent. -/
def RecordVersionMap.emplace (m : RecordVersionMap) (k v : Nat) : RecordVersionMap :=
  match RecordVersionMap.get m k with
  | some _ => m
  | none => (k, v) :: m

/-- Modelled from the spec: `RecordVersionMap::lookup(inout map, path)`
(spec section 4.2): for each key present in both the map and the on-disk
index, set the map entry to the max of the two versions. -/
def RecordVersionMap.lookup (m : RecordVersionMap) (idx : RecordVersionMap) : RecordVersionMap :=
  m.map (fun kv =>
    match RecordVersionMap.get idx kv.1 with
    | some v => if v > kv.2 then (kv.1, v) else kv
    | none => kv)

/-- An on-disk LSM table descriptor (`LSMTableRef`).  `idx` stands for the
contents of the `<filename>.idx` sidecar file on disk. -/
structure LSMTableRef where
  filename : String
  idx : RecordVersionMap
deriving Repr, DecidableEq

/-- A partition snapshot (`PartitionSnapshot`): head arena, optional
compacting arena, and the ordered on-disk table list. -/
structure PartitionSnapshot where
  head_arena : RecordArena
  compacting_arena : Option RecordArena
  lsm_tables : List LSMTableRef
deriving Repr, DecidableEq

namespace LSMPartitionWriter

/-- First loop of `insertRecords` (LSMPartitionWriter.cc:50-55): seed the
version map with 0 for every record whose version exceeds the head arena's
version for its id. -/
def recVersionsHead (head : RecordArena) (records : List RecordRef) : RecordVersionMap :=
  records.foldl
    (fun m r =>
      if RecordArena.fetchRecordVersion head r.record_id < r.record_version then
        RecordVersionMap.emplace m r.record_id 0
      else m)
    []

/-- Second step of `insertRecords` (LSMPartitionWriter.cc:57-64): raise each
map entry to the compacting arena's version when larger. -/
def mergeCompacting (compacting : Option RecordArena) (m : RecordVersionMap) :
    RecordVersionMap :=
  match compacting with
  | none => m
  | some ca =>
    m.map (fun kv =>
      let v := RecordArena.fetchRecordVersion ca kv.1
      if v > kv.2 then (kv.1, v) else kv)

/-- Third step of `insertRecords` (LSMPartitionWriter.cc:66-73): merge each
on-disk sidecar index into the map, iterating tables in reverse order. -/
def mergeTables (tables : List LSMTableRef) (m : RecordVersionMap) : RecordVersionMap :=
  tables.reverse.foldl (fun acc tbl => RecordVersionMap.lookup acc tbl.idx) m

/-- Insert a record id into the inserted-ids set (`Set<SHA1Hash>::emplace`),
keeping first-insertion order. -/
def setInsert (ids : List Nat) (id : Nat) : List Nat :=
  if id ∈ ids then ids else ids ++ [id]

/-- Final loop of `insertRecords` (LSMPartitionWriter.cc:75-91): for each
record, read the known version from the map (absent keys read as 0, as
`operator[]` default-inserts 0), set `is_update` when it is positive, skip
records at or below it, and attempt the arena insert. -/
def insertLoop (rv : RecordVersionMap) :
    List RecordRef → RecordArena × List Nat → RecordArena × List Nat
  | [], st => st
  | r :: rest, st =>
    let headv := (RecordVersionMap.get rv r.record_id).getD 0
    let r1 := if headv > 0 then { r with is_update := true } else r
    if r1.record_version ≤ headv then
      insertLoop rv rest st
    else
      let p := RecordArena.insertRecord st.1 r1
      insertLoop rv rest (p.1, if p.2 then setInsert st.2 r.record_id else st.2)

/-- The complete known-version map built by `insertRecords` before its
insert loop: head-arena seeding, compacting-arena merge, then the on-disk
index merge. -/
def rvOf (snap : PartitionSnapshot) (records : List RecordRef) : RecordVersionMap :=
  mergeTables snap.lsm_tables
    (mergeCompacting snap.compacting_arena (recVersionsHead snap.head_arena records))

/-- `LSMPartitionWriter::insertRecords` (LSMPartitionWriter.cc:34-94).
Raises on a frozen partition; otherwise computes the known-version map and
runs the insert loop over the head arena.  Returns the updated snapshot
(the head arena is mutated in place in the source) and the inserted-id set. -/
def insertRecords (frozen : Bool) (snap : PartitionSnapshot) (records : List RecordRef) :
    Except String (PartitionSnapshot × List Nat) :=
  if frozen then
    .error "partition is frozen"
  else
    let rv := rvOf snap records
    if rv.isEmpty then
      .ok (snap, [])
    else
      let st := insertLoop rv records (snap.head_arena, [])
      .ok ({ snap with head_arena := st.1 }, st.2)

/-- The record-id -> version map accumulated by `writeArenaToDisk`
(LSMPartitionWriter.cc:228-236) and written as the `.idx` sidecar. -/
def vmapOf (a : RecordArena) : RecordVersionMap :=
  a.map (fun r => (r.record_id, r.record_version))

/-- Phase A of `commit` (LSMPartitionWriter.cc:114-124): if no compacting
arena exists and the head arena has data, move head -> compacting and install
a fresh empty head. -/
def commitFlip (snap : PartitionSnapshot) : PartitionSnapshot :=
  if snap.compacting_arena = none ∧ snap.head_arena.size > 0 then
    { snap with compacting_arena := some snap.head_arena, head_arena := [] }
  else snap

/-- `LSMPartitionWriter::commit` (LSMPartitionWriter.cc:109-153): flip, then,
if a non-empty compacting arena is pending, flush it to a new on-disk table
(named `fname`, a random hex token in the source) and clear it. -/
def commit (snap : PartitionSnapshot) (fname : String) : PartitionSnapshot :=
  let s1 := commitFlip snap
  match s1.compacting_arena with
  | none => s1
  | some arena =>
    if arena.size > 0 then
      { s1 with
        compacting_arena := none
        lsm_tables := s1.lsm_tables ++ [⟨fname, vmapOf arena⟩] }
    else s1

/-- Scan loop of the `compact` install step (LSMPartitionWriter.cc:180-193):
walk the current table list at position `i`; positions inside `old` must
carry the captured filename, positions beyond `old` are collected. -/
def compactScan (old : List LSMTableRef) (i : Nat) :
    List LSMTableRef → Except String (List LSMTableRef)
  | [] => .ok []
  | tbl :: rest =>
    if h : i < old.length then
      if (old.get ⟨i, h⟩).filename ≠ tbl.filename then
        .error "can't commit compaction, aborting"
      else compactScan old (i + 1) rest
    else
      (compactScan old (i + 1) rest).map (fun extras => tbl :: extras)

/-- Install step of `LSMPartitionWriter::compact` (LSMPartitionWriter.cc:
172-202) with the captured `old_tables` list; the compaction strategy is
commented out in the source, so `new_tables = old_tables`.  Raises
concurrent-modification if the current list is shorter than `old` or a
prefix entry changed filename; otherwise publishes `old` plus every entry
appended beyond `old`. -/
def compactInstall (old : List LSMTableRef) (snap : PartitionSnapshot) :
    Except String PartitionSnapshot :=
  if snap.lsm_tables.length < old.length then
    .error "can't commit compaction, aborting"
  else
    (compactScan old 0 snap.lsm_tables).map
      (fun extras => { snap with lsm_tables := old ++ extras })

/-- The snapshot left published after the install step: on error the
exception propagates before `setSnapshot`, so the snapshot is unchanged. -/
def compactPublished (old : List LSMTableRef) (snap : PartitionSnapshot) :
    PartitionSnapshot :=
  match compactInstall old snap with
  | .ok s => s
  | .error _ => snap

/-- `LSMPartitionWriter::compact` (LSMPartitionWriter.cc:155-203) run without
interleaving: commit, capture the table list, install. -/
def compact (snap : PartitionSnapshot) (fname : String) : Except String PartitionSnapshot :=
  let s1 := commit snap fname
  compactInstall s1.lsm_tables s1

/-- Spec-side view: highest version for `id` recorded in the sidecar indexes
of a table list. -/
def diskVersionL (tables : List LSMTableRef) (id : Nat) : Nat :=
  tables.foldl (fun acc tbl => max acc ((RecordVersionMap.get tbl.idx id).getD 0)) 0

/-- Spec-side view: highest version for `id` recorded in the on-disk sidecar
indexes of `snap`. -/
def diskVersion (snap : PartitionSnapshot) (id : Nat) : Nat :=
  diskVersionL snap.lsm_tables id

/-- `id` has a candidate record in the batch: some incoming record carries
`id` with a version above the head arena's.  Exactly these ids enter the
known-version map. -/
def hasCand (head : RecordArena) (records : List RecordRef) (id : Nat) : Prop :=
  ∃ r ∈ records,
    r.record_id = id ∧ RecordArena.fetchRecordVersion head id < r.record_version

instance hasCand.decidable (head : RecordArena) (records : List RecordRef) (id : Nat) :
    Decidable (hasCand head records id) :=
  List.decidableBEx _ records

/-- Spec-side view: highest version for `id` outside the head arena, i.e.
across the compacting arena (if present) and the on-disk sidecar indexes. -/
def baseKnown (snap : PartitionSnapshot) (id : Nat) : Nat :=
  max
    (match snap.compacting_arena with
     | some ca => RecordArena.fetchRecordVersion ca id
     | none => 0)
    (diskVersion snap id)

/-- Spec-side view: the highest version known for `id` when the head arena
currently holds `a`: the max across head arena, compacting arena and on-disk
indexes. -/
def knownVersion (a : RecordArena) (snap : PartitionSnapshot) (id : Nat) : Nat :=
  max (RecordArena.fetchRecordVersion a id) (baseKnown snap id)

/-- Reference model of processing one incoming record, following the spec's
words: a record is retained exactly when its version strictly exceeds the
version currently known for its id; a retained record is stored with
`is_update` set when a non-zero version existed in the compacting arena or
an on-disk index. -/
def specStep (snap : PartitionSnapshot) (st : RecordArena × List Nat) (r : RecordRef) :
    RecordArena × List Nat :=
  if knownVersion st.1 snap r.record_id < r.record_version then
    ((RecordArena.insertRecord st.1
        { r with is_update := r.is_update || decide (0 < baseKnown snap r.record_id) }).1,
      setInsert st.2 r.record_id)
  else st

/-- Reference model of `insert_records` on a non-frozen partition, processing
the records in order with `specStep`. -/
def specInsertRecords (snap : PartitionSnapshot) (records : List RecordRef) :
    PartitionSnapshot × List Nat :=
  let st := records.foldl (specStep snap) (snap.head_arena, [])
  ({ snap with head_arena := st.1 }, st.2)

end LSMPartitionWriter

/-- One shard of MapReduce work (`MapReduceTaskShard`); only the dependency
index list matters to the build pass. -/
structure MapReduceTaskShard where
  dependencies : List Nat
deriving Repr, DecidableEq

/-- A tree of reduce tasks (`ReduceTask`, the task kind in the given
fragment): `sources` are the upstream tasks, `num_shards` the reduce fan-out.
A node with no sources appends shards with no dependencies. -/
inductive MapReduceTask where
  | reduce (sources : List MapReduceTask) (num_shards : Nat)
deriving Repr

namespace ReduceTask

/-- The shard-allocation loop of `ReduceTask::build` (ReduceTask.cc:41-48):
append `n` shards, each depending on `in_indexes`, recording the index of
each appended shard. -/
def appendShards (in_indexes : List Nat) :
    Nat → List MapReduceTaskShard → List MapReduceTaskShard × List Nat
  | 0, shards => (shards, [])
  | n + 1, shards =>
    let out0 := shards.length
    let p := appendShards in_indexes n (shards ++ [⟨in_indexes⟩])
    (p.1, out0 :: p.2)

mutual

/-- `ReduceTask::build` (ReduceTask.cc:32-51): recursively build every source
in order, concatenating their produced indices into `in_indexes`, then append
`num_shards` shards each depending on all of `in_indexes`.  Returns the
extended shard list and the indices of the appended shards. -/
def build : MapReduceTask → List MapReduceTaskShard → List MapReduceTaskShard × List Nat
  | .reduce sources n, shards =>
    let p := buildSources sources shards
    appendShards p.2 n p.1

/-- The source loop of `ReduceTask::build` (ReduceTask.cc:36-39): build each
source task in order, concatenating the produced index lists. -/
def buildSources :
    List MapReduceTask → List MapReduceTaskShard → List MapReduceTaskShard × List Nat
  | [], shards => (shards, [])
  | t :: ts, shards =>
    let p := build t shards
    let q := buildSources ts p.1
    (q.1, p.2 ++ q.2)

end

/-- Invariant I6: every shard's dependency indices are strictly smaller than
its own index in the shard list. -/
def shardListOk (l : List MapReduceTaskShard) : Prop :=
  ∀ i, (h : i < l.length) → ∀ d ∈ (l.get ⟨i, h⟩).dependencies, d < i

instance shardListOk.decidable (l : List MapReduceTaskShard) : Decidable (shardListOk l) :=
  Nat.decidableBallLT l.length _

/-- A replica host (`ReplicaRef`), reduced to its address. -/
structure ReplicaRef where
  addr : String
deriving Repr, DecidableEq

/-- `MapReduceShardResult`: where a produced intermediate blob lives. -/
structure MapReduceShardResult where
  host : ReplicaRef
  result_id : Nat
deriving Repr, DecidableEq

/-- An HTTP response as seen by `executeRemote`. -/
structure HTTPResponse where
  statusCode : Nat
  body : String
deriving Repr, DecidableEq

/-- Value of one hex digit character; non-hex characters contribute 0. -/
def hexVal (c : Char) : Nat :=
  if c.toNat ≥ 48 ∧ c.toNat ≤ 57 then c.toNat - 48
  else if c.toNat ≥ 97 ∧ c.toNat ≤ 102 then c.toNat - 87
  else if c.toNat ≥ 65 ∧ c.toNat ≤ 70 then c.toNat - 55
  else 0

/-- Modelled from the spec: `SHA1Hash::fromHexString` decodes a hex-encoded
160-bit result id (its source is not part of the given fragment). -/
def fromHexString (s : String) : Nat :=
  (s.foldl (fun acc c => acc * 16 + hexVal c) 0) % (2 ^ 160)

/-- `ReduceTask::executeRemote` (ReduceTask.cc:89-139), response handling:
204 means no output (`None`); any status other than 201 raises; 201 carries
the hex-encoded result id in the body. -/
def executeRemote (host : ReplicaRef) (res : HTTPResponse) :
    Except String (Option MapReduceShardResult) :=
  if res.statusCode = 204 then
    .ok none
  else if res.statusCode ≠ 201 then
    .error ("received non-201 response: " ++ res.body)
  else
    .ok (some ⟨host, fromHexString res.body⟩)

/-- The replica loop of `ReduceTask::execute` (ReduceTask.cc:68-87), with the
outcome of contacting each host given by `remote`: try hosts in order,
accumulating error messages; the first host that does not throw decides the
result; if every host throws, raise a runtime error joining the messages. -/
def executeLoop (remote : ReplicaRef → Except String (Option MapReduceShardResult)) :
    List ReplicaRef → List String → Except String (Option MapReduceShardResult)
  | [], errors =>
    .error ("MapTableTask::execute failed: " ++ String.intercalate ", " errors)
  | h :: hs, errors =>
    match remote h with
    | .ok v => .ok v
    | .error e => executeLoop remote hs (errors ++ [e])

/-- `ReduceTask::execute` (ReduceTask.cc:53-87) restricted to its replica
loop: `hosts` is the list returned by the replication policy for the shard's
output id. -/
def execute (hosts : List ReplicaRef)
    (remote : ReplicaRef → Except String (Option MapReduceShardResult)) :
    Except String (Option MapReduceShardResult) :=
  executeLoop remote hosts []

/-- The hosts actually contacted by the replica loop: every host up to and
including the first one that does not throw. -/
def contactedHosts (remote : ReplicaRef → Except String (Option MapReduceShardResult)) :
    List ReplicaRef → List ReplicaRef
  | [] => []
  | h :: hs =>
    match remote h with
    | .ok _ => [h]
    | .error _ => h :: contactedHosts remote hs

/-- The message carried by a thrown outcome (empty for a success). -/
def errMsg (e : Except String (Option MapReduceShardResult)) : String :=
  match e with
  | .error s => s
  | .ok _ => ""

end ReduceTask

namespace LSMPartitionWriter

/-- C3: on a snapshot with no compacting arena and a non-empty head arena,
the flip phase moves the head arena into the compacting slot and installs a
fresh empty head; the completed commit clears the compacting arena and
appends exactly one new table ref carrying the flushed file's name. -/
theorem claim_C3 (snap : PartitionSnapshot) (fname : String)
    (h1 : snap.compacting_arena = none) (h2 : 0 < snap.head_arena.size) :
    (commitFlip snap).compacting_arena = some snap.head_arena ∧
    (commitFlip snap).head_arena = [] ∧
    (commit snap fname).compacting_arena = none ∧
    (commit snap fname).lsm_tables =
      snap.lsm_tables ++ [⟨fname, vmapOf snap.head_arena⟩] := by
  have hflip : commitFlip snap =
      { snap with compacting_arena := some snap.head_arena, head_arena := [] } := by
    unfold commitFlip
    rw [if_pos ⟨h1, h2⟩]
  refine ⟨by rw [hflip], by rw [hflip], ?_, ?_⟩ <;>
    · unfold commit
      rw [hflip]
      simp only []
      rw [if_pos h2]

/-- C3 witness: a one-record head arena with no compacting arena. -/
theorem claim_C3_witness :
    (commitFlip ⟨[⟨1, 5, false⟩], none, []⟩).compacting_arena = some [⟨1, 5, false⟩] ∧
    (commitFlip ⟨[⟨1, 5, false⟩], none, []⟩).head_arena = [] ∧
    (commit ⟨[⟨1, 5, false⟩], none, []⟩ "f1").compacting_arena = none ∧
    (commit ⟨[⟨1, 5, false⟩], none, []⟩ "f1").lsm_tables =
      [] ++ [⟨"f1", vmapOf [⟨1, 5, false⟩]⟩] :=
  claim_C3 ⟨[⟨1, 5, false⟩], none, []⟩ "f1" rfl (by decide)

/-- C9 (implicit): entering commit with a non-empty compacting arena already
present skips the flip (the head arena stays in place, even when non-empty or
empty), yet still flushes the leftover compacting arena to a new on-disk
table and clears it. -/
theorem claim_C9 (snap : PartitionSnapshot) (fname : String) (arena : RecordArena)
    (h1 : snap.compacting_arena = some arena) (h2 : 0 < arena.size) :
    commitFlip snap = snap ∧
    (commit snap fname).head_arena = snap.head_arena ∧
    (commit snap fname).compacting_arena = none ∧
    (commit snap fname).lsm_tables =
      snap.lsm_tables ++ [⟨fname, vmapOf arena⟩] := by
  have hflip : commitFlip snap = snap := by
    unfold commitFlip
    rw [if_neg]
    intro hcon
    rw [h1] at hcon
    exact Option.noConfusion hcon.1
  refine ⟨hflip, ?_, ?_, ?_⟩ <;>
    · unfold commit
      rw [hflip]
      simp only [h1]
      rw [if_pos h2]

/-- C9 witness: empty head arena, leftover one-record compacting arena. -/
theorem claim_C9_witness :
    commitFlip ⟨[], some [⟨3, 2, false⟩], [⟨"t0", [(9, 9)]⟩]⟩ =
      ⟨[], some [⟨3, 2, false⟩], [⟨"t0", [(9, 9)]⟩]⟩ ∧
    (commit ⟨[], some [⟨3, 2, false⟩], [⟨"t0", [(9, 9)]⟩]⟩ "f2").head_arena = [] ∧
    (commit ⟨[], some [⟨3, 2, false⟩], [⟨"t0", [(9, 9)]⟩]⟩ "f2").compacting_arena = none ∧
    (commit ⟨[], some [⟨3, 2, false⟩], [⟨"t0", [(9, 9)]⟩]⟩ "f2").lsm_tables =
      [⟨"t0", [(9, 9)]⟩] ++ [⟨"f2", vmapOf [⟨3, 2, false⟩]⟩] :=
  claim_C9 ⟨[], some [⟨3, 2, false⟩], [⟨"t0", [(9, 9)]⟩]⟩ "f2" [⟨3, 2, false⟩] rfl (by decide)

/-- A filename mismatch inside the `old` window makes the install scan raise
the concurrent-modification error. -/
theorem compactScan_err (old : List LSMTableRef) :
    ∀ (cur : List LSMTableRef) (i j : Nat), i + j < old.length → j < cur.length →
      (old[i + j]?).map LSMTableRef.filename ≠ (cur[j]?).map LSMTableRef.filename →
      compactScan old i cur = .error "can't commit compaction, aborting" := by
  intro cur
  induction cur with
  | nil =>
    intro i j _ h2 _
    exact absurd h2 (by simp)
  | cons tbl rest ih =>
    intro i j h1 h2 hne
    simp only [compactScan]
    cases j with
    | zero =>
      have hi : i < old.length := by omega
      rw [dif_pos hi]
      have hne2 : (old.get ⟨i, hi⟩).filename ≠ tbl.filename := by
        simp only [Nat.add_zero, List.getElem?_eq_getElem hi, List.getElem?_cons_zero,
          Option.map_some'] at hne
        simp only [List.get_eq_getElem]
        exact fun h => hne (by rw [h])
      rw [if_pos hne2]
    | succ j' =>
      have hi : i < old.length := by omega
      rw [dif_pos hi]
      by_cases hm : (old.get ⟨i, hi⟩).filename ≠ tbl.filename
      · rw [if_pos hm]
      · rw [if_neg hm]
        apply ih (i + 1) j' (by omega) (by simpa using h2)
        have hidx : i + 1 + j' = i + (j' + 1) := by omega
        rw [hidx]
        simpa using hne

/-- A successful install scan returns exactly the entries beyond the `old`
window. -/
theorem compactScan_ok_val (old : List LSMTableRef) :
    ∀ (cur : List LSMTableRef) (i : Nat) (extras : List LSMTableRef),
      compactScan old i cur = .ok extras → extras = cur.drop (old.length - i) := by
  intro cur
  induction cur with
  | nil =>
    intro i extras h
    simp only [compactScan] at h
    cases h
    simp
  | cons tbl rest ih =>
    intro i extras h
    simp only [compactScan] at h
    by_cases hi : i < old.length
    · rw [dif_pos hi] at h
      by_cases hm : (old.get ⟨i, hi⟩).filename ≠ tbl.filename
      · rw [if_pos hm] at h
        exact absurd h (by simp)
      · rw [if_neg hm] at h
        rw [ih (i + 1) extras h]
        have hd : old.length - i = (old.length - (i + 1)) + 1 := by omega
        rw [hd, List.drop_succ_cons]
    · rw [dif_neg hi] at h
      cases hscan : compactScan old (i + 1) rest with
      | error e =>
        rw [hscan] at h
        exact absurd h (by simp [Except.map])
      | ok ex2 =>
        rw [hscan] at h
        simp only [Except.map] at h
        cases h
        rw [ih (i + 1) ex2 hscan]
        have hz : old.length - (i + 1) = 0 := by omega
        have hz2 : old.length - i = 0 := by omega
        rw [hz, hz2]
        simp

/-- A prefix whose filenames all match lets the install scan succeed. -/
theorem compactScan_ok (old : List LSMTableRef) :
    ∀ (cur : List LSMTableRef) (i : Nat),
      (∀ j, j < cur.length → i + j < old.length →
        (old[i + j]?).map LSMTableRef.filename = (cur[j]?).map LSMTableRef.filename) →
      compactScan old i cur = .ok (cur.drop (old.length - i)) := by
  intro cur
  induction cur with
  | nil =>
    intro i _
    simp [compactScan]
  | cons tbl rest ih =>
    intro i hmatch
    simp only [compactScan]
    by_cases hi : i < old.length
    · rw [dif_pos hi]
      have h0 := hmatch 0 (by simp) (by omega)
      have heq : (old.get ⟨i, hi⟩).filename = tbl.filename := by
        simp only [Nat.add_zero, List.getElem?_eq_getElem hi, List.getElem?_cons_zero,
          Option.map_some'] at h0
        simpa [List.get_eq_getElem] using h0
      rw [if_neg (fun hc => hc heq)]
      rw [ih (i + 1) ?_]
      · have hd : old.length - i = (old.length - (i + 1)) + 1 := by omega
        rw [hd, List.drop_succ_cons]
      · intro j hj hj2
        have := hmatch (j + 1) (by simpa using Nat.succ_lt_succ hj) (by omega)
        have hidx : i + (j + 1) = i + 1 + j := by omega
        rw [hidx] at this
        simpa using this
    · rw [dif_neg hi]
      rw [ih (i + 1) (fun j hj hj2 => absurd hj2 (by omega))]
      have hz : old.length - (i + 1) = 0 := by omega
      have hz2 : old.length - i = 0 := by omega
      rw [hz, hz2]
      simp [Except.map]

/-- C4: the compaction install step raises the concurrent-modification error
exactly when the current table list is shorter than the captured `old_tables`
or some entry within the first `old_tables.size()` positions changed
filename; on success the published list is `old_tables` plus every entry
appended beyond them, with the rest of the snapshot untouched; on error the
published snapshot is unchanged. -/
theorem claim_C4 (old : List LSMTableRef) (snap : PartitionSnapshot) :
    (compactInstall old snap = .error "can't commit compaction, aborting" ↔
      snap.lsm_tables.length < old.length ∨
      ∃ j, ∃ (h1 : j < old.length) (h2 : j < snap.lsm_tables.length),
        (old.get ⟨j, h1⟩).filename ≠ (snap.lsm_tables.get ⟨j, h2⟩).filename) ∧
    (∀ s, compactInstall old snap = .ok s →
      s.lsm_tables = old ++ snap.lsm_tables.drop old.length ∧
      s.head_arena = snap.head_arena ∧
      s.compacting_arena = snap.compacting_arena) ∧
    (compactInstall old snap = .error "can't commit compaction, aborting" →
      compactPublished old snap = snap) := by
  have hinstall_ok : ¬ (snap.lsm_tables.length < old.length ∨
      ∃ j, ∃ (h1 : j < old.length) (h2 : j < snap.lsm_tables.length),
        (old.get ⟨j, h1⟩).filename ≠ (snap.lsm_tables.get ⟨j, h2⟩).filename) →
      compactInstall old snap =
        .ok { snap with lsm_tables := old ++ snap.lsm_tables.drop old.length } := by
    intro hno
    push_neg at hno
    obtain ⟨hlen, hpre⟩ := hno
    unfold compactInstall
    rw [if_neg (by omega)]
    rw [compactScan_ok old snap.lsm_tables 0 ?_]
    · simp [Except.map]
    · intro j hj hj2
      have := hpre j (by omega) hj
      simp only [Nat.zero_add, List.getElem?_eq_getElem (show j < old.length by omega),
        List.getElem?_eq_getElem hj, Option.map_some']
      simp only [List.get_eq_getElem] at this
      rw [this]
  have hinstall_err : (snap.lsm_tables.length < old.length ∨
      ∃ j, ∃ (h1 : j < old.length) (h2 : j < snap.lsm_tables.length),
        (old.get ⟨j, h1⟩).filename ≠ (snap.lsm_tables.get ⟨j, h2⟩).filename) →
      compactInstall old snap = .error "can't commit compaction, aborting" := by
    rintro (hlen | ⟨j, h1, h2, hne⟩)
    · unfold compactInstall
      rw [if_pos hlen]
    · unfold compactInstall
      by_cases hlen : snap.lsm_tables.length < old.length
      · rw [if_pos hlen]
      · rw [if_neg hlen]
        rw [compactScan_err old snap.lsm_tables 0 j (by omega) h2 ?_]
        · rfl
        · simp only [Nat.zero_add, List.getElem?_eq_getElem h1,
            List.getElem?_eq_getElem h2, Option.map_some']
          simp only [List.get_eq_getElem] at hne
          exact fun hc => hne (by injection hc)
  refine ⟨⟨?_, hinstall_err⟩, ?_, ?_⟩
  · intro herr
    by_contra hno
    rw [hinstall_ok hno] at herr
    exact Except.noConfusion herr
  · intro s hs
    by_cases hcond : snap.lsm_tables.length < old.length ∨
      ∃ j, ∃ (h1 : j < old.length) (h2 : j < snap.lsm_tables.length),
        (old.get ⟨j, h1⟩).filename ≠ (snap.lsm_tables.get ⟨j, h2⟩).filename
    · rw [hinstall_err hcond] at hs
      exact Except.noConfusion hs
    · rw [hinstall_ok hcond] at hs
      cases hs
      exact ⟨rfl, rfl, rfl⟩
  · intro herr
    unfold compactPublished
    rw [herr]

/-- C4 witness: a changed prefix filename raises; an appended entry beyond
`old_tables` survives a successful install. -/
theorem claim_C4_witness :
    compactInstall [⟨"a", []⟩] ⟨[], none, [⟨"x", []⟩, ⟨"b", []⟩]⟩ =
      .error "can't commit compaction, aborting" ∧
    ∀ s, compactInstall [⟨"a", []⟩] ⟨[], none, [⟨"a", []⟩, ⟨"b", []⟩]⟩ = .ok s →
      s.lsm_tables =
        [⟨"a", []⟩] ++ ([⟨"x", []⟩, ⟨"b", []⟩] : List LSMTableRef).drop 1 ∧
      s.head_arena = [] ∧ s.compacting_arena = none :=
  ⟨(claim_C4 [⟨"a", []⟩] ⟨[], none, [⟨"x", []⟩, ⟨"b", []⟩]⟩).1.mpr
      (Or.inr ⟨0, by decide, by decide, by decide⟩),
   fun s hs => (claim_C4 [⟨"a", []⟩] ⟨[], none, [⟨"a", []⟩, ⟨"b", []⟩]⟩).2.1 s hs⟩

/-- Fetching after dropping all records of id `k` reads 0 at `k` and is
unchanged elsewhere. -/
theorem fetch_filter (a : RecordArena) (k id : Nat) :
    RecordArena.fetchRecordVersion (a.filter (fun x => x.record_id != k)) id =
      if k = id then 0 else RecordArena.fetchRecordVersion a id := by
  induction a with
  | nil => simp [RecordArena.fetchRecordVersion]
  | cons r rest ih =>
    by_cases hk : r.record_id = k
    · rw [List.filter_cons_of_neg (by simp [hk])]
      rw [ih]
      by_cases hid : k = id
      · simp [hid]
      · simp only [if_neg hid]
        rw [RecordArena.fetchRecordVersion, if_neg (by omega)]
    · rw [List.filter_cons_of_pos (by simp [hk])]
      by_cases hr : r.record_id = id
      · have hkid : ¬ k = id := by omega
        simp [RecordArena.fetchRecordVersion, hr, hkid]
      · simp only [RecordArena.fetchRecordVersion, if_neg hr]
        exact ih

/-- The version read after an arena insert: the inserted record's version at
its id when the insert took effect, the old version everywhere else. -/
theorem fetch_insertRecord (a : RecordArena) (r : RecordRef) (id : Nat) :
    RecordArena.fetchRecordVersion (RecordArena.insertRecord a r).1 id =
      if r.record_id = id ∧
          RecordArena.fetchRecordVersion a r.record_id < r.record_version then
        r.record_version
      else RecordArena.fetchRecordVersion a id := by
  unfold RecordArena.insertRecord
  by_cases hins : RecordArena.fetchRecordVersion a r.record_id < r.record_version
  · rw [if_pos hins]
    simp only []
    rw [RecordArena.fetchRecordVersion]
    by_cases hid : r.record_id = id
    · rw [if_pos hid, if_pos ⟨hid, hins⟩]
    · rw [if_neg hid, if_neg (fun hc => hid hc.1), fetch_filter, if_neg hid]
  · rw [if_neg hins, if_neg (fun hc => hins hc.2)]

/-- Arena versions never decrease under an insert. -/
theorem fetch_insertRecord_mono (a : RecordArena) (r : RecordRef) (id : Nat) :
    RecordArena.fetchRecordVersion a id ≤
      RecordArena.fetchRecordVersion (RecordArena.insertRecord a r).1 id := by
  rw [fetch_insertRecord]
  by_cases hc : r.record_id = id ∧
      RecordArena.fetchRecordVersion a r.record_id < r.record_version
  · rw [if_pos hc]
    have := hc.2
    rw [hc.1] at this
    omega
  · rw [if_neg hc]

/-- Reading a map after `emplace`: the new binding only when the key was
absent. -/
theorem get_emplace (m : RecordVersionMap) (k v id : Nat) :
    RecordVersionMap.get (m.emplace k v) id =
      if id = k ∧ RecordVersionMap.get m k = none then some v
      else RecordVersionMap.get m id := by
  unfold RecordVersionMap.emplace
  cases hk : RecordVersionMap.get m k with
  | some w =>
    rw [if_neg (fun hc => Option.noConfusion hc.2)]
  | none =>
    rw [RecordVersionMap.get]
    by_cases hid : id = k
    · rw [if_pos (by omega), if_pos ⟨hid, rfl⟩]
    · rw [if_neg (by omega), if_neg (fun hc => hid hc.1)]

/-- Characterization of the head-arena seeding loop over an arbitrary
accumulator: already-present keys keep their value, candidate ids enter the
map bound to 0. -/
theorem get_recVersionsHead_aux (head : RecordArena) :
    ∀ (records : List RecordRef) (m : RecordVersionMap) (id : Nat),
      RecordVersionMap.get
          (records.foldl
            (fun m r =>
              if RecordArena.fetchRecordVersion head r.record_id < r.record_version then
                RecordVersionMap.emplace m r.record_id 0
              else m)
            m) id =
        match RecordVersionMap.get m id with
        | some v => some v
        | none => if hasCand head records id then some 0 else none := by
  intro records
  induction records with
  | nil =>
    intro m id
    simp only [List.foldl_nil]
    cases RecordVersionMap.get m id with
    | some v => rfl
    | none => simp [hasCand]
  | cons r rs ih =>
    intro m id
    simp only [List.foldl_cons]
    rw [ih]
    by_cases hc : RecordArena.fetchRecordVersion head r.record_id < r.record_version
    · rw [if_pos hc, get_emplace]
      by_cases hid : id = r.record_id ∧ RecordVersionMap.get m r.record_id = none
      · rw [if_pos hid]
        rcases hid with ⟨hid, hnone⟩
        rw [hid, hnone]
        have : hasCand head (r :: rs) r.record_id := ⟨r, by simp, rfl, hc⟩
        rw [if_pos this]
      · rw [if_neg hid]
        cases hg : RecordVersionMap.get m id with
        | some v => rfl
        | none =>
          have hneq : ¬ (r.record_id = id ∧
              RecordArena.fetchRecordVersion head id < r.record_version) := by
            intro hpair
            exact hid ⟨hpair.1.symm, by rw [hpair.1]; exact hg⟩
          have : hasCand head (r :: rs) id ↔ hasCand head rs id := by
            unfold hasCand
            simp only [List.mem_cons]
            constructor
            · rintro ⟨x, hx | hx, hxp⟩
              · exact absurd (hx ▸ hxp) hneq
              · exact ⟨x, hx, hxp⟩
            · rintro ⟨x, hx, hxp⟩
              exact ⟨x, Or.inr hx, hxp⟩
          rw [if_congr this rfl rfl]
    · rw [if_neg hc]
      cases hg : RecordVersionMap.get m id with
      | some v => rfl
      | none =>
        have hneq : ¬ (r.record_id = id ∧
            RecordArena.fetchRecordVersion head id < r.record_version) := by
          intro hpair
          rw [hpair.1] at hc
          exact hc hpair.2
        have : hasCand head (r :: rs) id ↔ hasCand head rs id := by
          unfold hasCand
          simp only [List.mem_cons]
          constructor
          · rintro ⟨x, hx | hx, hxp⟩
            · exact absurd (hx ▸ hxp) hneq
            · exact ⟨x, hx, hxp⟩
          · rintro ⟨x, hx, hxp⟩
            exact ⟨x, Or.inr hx, hxp⟩
        rw [if_congr this rfl rfl]

/-- Reading the head-arena seeding map: candidate ids map to 0, others are
absent. -/
theorem get_recVersionsHead (head : RecordArena) (records : List RecordRef) (id : Nat) :
    RecordVersionMap.get (recVersionsHead head records) id =
      if hasCand head records id then some 0 else none := by
  have := get_recVersionsHead_aux head records [] id
  simpa [recVersionsHead, RecordVersionMap.get] using this

/-- Merging the compacting arena raises each map entry to the arena's
version when larger. -/
theorem get_mergeCompacting (ca : RecordArena) (m : RecordVersionMap) (id : Nat) :
    RecordVersionMap.get (mergeCompacting (some ca) m) id =
      (RecordVersionMap.get m id).map
        (fun v => max v (RecordArena.fetchRecordVersion ca id)) := by
  induction m with
  | nil => rfl
  | cons kv rest ih =>
    obtain ⟨k, w⟩ := kv
    simp only [mergeCompacting, List.map_cons] at ih ⊢
    by_cases hv : RecordArena.fetchRecordVersion ca k > w
    · rw [if_pos hv]
      simp only [RecordVersionMap.get]
      by_cases hk : k = id
      · subst hk
        rw [if_pos rfl, if_pos rfl, Option.map_some']
        rw [Nat.max_eq_right (by omega)]
      · rw [if_neg hk, if_neg hk]
        exact ih
    · rw [if_neg hv]
      simp only [RecordVersionMap.get]
      by_cases hk : k = id
      · subst hk
        rw [if_pos rfl, if_pos rfl, Option.map_some']
        rw [Nat.max_eq_left (by omega)]
      · rw [if_neg hk, if_neg hk]
        exact ih

/-- Merging one on-disk index raises each map entry to the index's version
when present and larger. -/
theorem get_lookup (m idx : RecordVersionMap) (id : Nat) :
    RecordVersionMap.get (RecordVersionMap.lookup m idx) id =
      (RecordVersionMap.get m id).map
        (fun v => max v ((RecordVersionMap.get idx id).getD 0)) := by
  induction m with
  | nil => rfl
  | cons kv rest ih =>
    obtain ⟨k, w⟩ := kv
    simp only [RecordVersionMap.lookup, List.map_cons] at ih ⊢
    by_cases hk : k = id
    · subst hk
      cases hidx : RecordVersionMap.get idx k with
      | none =>
        simp only [hidx]
        simp [RecordVersionMap.get]
      | some dv =>
        simp only [hidx]
        by_cases hv : dv > w
        · rw [if_pos hv]
          simp [RecordVersionMap.get, Nat.max_eq_right (Nat.le_of_lt hv)]
        · rw [if_neg hv]
          simp [RecordVersionMap.get, Nat.max_eq_left (by omega : dv ≤ w)]
    · cases hidx : RecordVersionMap.get idx k with
      | none =>
        simp only [hidx]
        simp only [RecordVersionMap.get, if_neg hk]
        exact ih
      | some dv =>
        simp only [hidx]
        by_cases hv : dv > w
        · rw [if_pos hv]
          simp only [RecordVersionMap.get, if_neg hk]
          exact ih
        · rw [if_neg hv]
          simp only [RecordVersionMap.get, if_neg hk]
          exact ih

/-- Folding a max-update over a list starting from `v` is the max of `v` and
the fold from 0. -/
theorem foldl_max_shift (g : LSMTableRef → Nat) :
    ∀ (L : List LSMTableRef) (v : Nat),
      L.foldl (fun acc t => max acc (g t)) v =
        max v (L.foldl (fun acc t => max acc (g t)) 0) := by
  intro L
  induction L with
  | nil =>
    intro v
    simp
  | cons t L ih =>
    intro v
    simp only [List.foldl_cons]
    rw [ih (max v (g t)), ih (max 0 (g t))]
    simp only [Nat.zero_max]
    omega

/-- The max-fold over the reversed table list equals the fold over the
original list. -/
theorem foldl_max_reverse (g : LSMTableRef → Nat) (L : List LSMTableRef) :
    L.reverse.foldl (fun acc t => max acc (g t)) 0 =
      L.foldl (fun acc t => max acc (g t)) 0 := by
  induction L with
  | nil => rfl
  | cons t L ih =>
    simp only [List.reverse_cons, List.foldl_append, List.foldl_cons, List.foldl_nil,
      List.foldl_cons]
    rw [foldl_max_shift g L.reverse, foldl_max_shift g L, ih]
    simp only [Nat.zero_max]
    omega

/-- Merging every on-disk index (in reverse table order) raises each map
entry by the tables' highest recorded version. -/
theorem get_mergeTables (tables : List LSMTableRef) (m : RecordVersionMap) (id : Nat) :
    RecordVersionMap.get (mergeTables tables m) id =
      (RecordVersionMap.get m id).map (fun v => max v (diskVersionL tables id)) := by
  have haux : ∀ (L : List LSMTableRef) (m : RecordVersionMap),
      RecordVersionMap.get (L.foldl (fun acc tbl => RecordVersionMap.lookup acc tbl.idx) m) id =
        (RecordVersionMap.get m id).map
          (fun v => L.foldl (fun acc tbl => max acc ((RecordVersionMap.get tbl.idx id).getD 0)) v) := by
    intro L
    induction L with
    | nil =>
      intro m
      simp only [List.foldl_nil]
      cases RecordVersionMap.get m id <;> rfl
    | cons t L ih =>
      intro m
      simp only [List.foldl_cons]
      rw [ih, get_lookup]
      cases RecordVersionMap.get m id <;> rfl
  unfold mergeTables diskVersionL
  rw [haux]
  cases RecordVersionMap.get m id with
  | none => rfl
  | some v =>
    rw [Option.map_some', Option.map_some']
    rw [foldl_max_shift _ tables.reverse v]
    rw [foldl_max_reverse]

/-- Reading the complete known-version map of `insertRecords`: candidate ids
are bound to the highest version outside the head arena, other ids are
absent. -/
theorem get_rvOf (snap : PartitionSnapshot) (records : List RecordRef) (id : Nat) :
    RecordVersionMap.get (rvOf snap records) id =
      if hasCand snap.head_arena records id then some (baseKnown snap id) else none := by
  unfold rvOf
  cases hca : snap.compacting_arena with
  | none =>
    rw [get_mergeTables]
    simp only [mergeCompacting]
    rw [get_recVersionsHead]
    by_cases hc : hasCand snap.head_arena records id
    · rw [if_pos hc, if_pos hc, Option.map_some']
      unfold baseKnown diskVersion
      rw [hca]
    · rw [if_neg hc, if_neg hc]
      rfl
  | some ca =>
    rw [get_mergeTables, get_mergeCompacting, get_recVersionsHead]
    by_cases hc : hasCand snap.head_arena records id
    · rw [if_pos hc, if_pos hc, Option.map_some', Option.map_some']
      unfold baseKnown diskVersion
      rw [hca]
      simp [Nat.zero_max]
    · rw [if_neg hc, if_neg hc]
      rfl

/-- All three map stages preserve length, so the final map is empty exactly
when the seeding stage produced nothing. -/
theorem rvOf_length (snap : PartitionSnapshot) (records : List RecordRef) :
    (rvOf snap records).length = (recVersionsHead snap.head_arena records).length := by
  have hlookup : ∀ (m idx : RecordVersionMap),
      (RecordVersionMap.lookup m idx).length = m.length := by
    intro m idx
    simp [RecordVersionMap.lookup]
  have hmt : ∀ (L : List LSMTableRef) (m : RecordVersionMap),
      (L.foldl (fun acc tbl => RecordVersionMap.lookup acc tbl.idx) m).length = m.length := by
    intro L
    induction L with
    | nil => intro m; rfl
    | cons t L ih =>
      intro m
      simp only [List.foldl_cons]
      rw [ih, hlookup]
  unfold rvOf mergeTables
  rw [hmt]
  cases snap.compacting_arena <;> simp [mergeCompacting]

/-- The seeding stage is empty exactly when every incoming record is at or
below the head arena's version for its id. -/
theorem recVersionsHead_eq_nil (head : RecordArena) (records : List RecordRef) :
    recVersionsHead head records = [] ↔
      ∀ r ∈ records,
        r.record_version ≤ RecordArena.fetchRecordVersion head r.record_id := by
  constructor
  · intro hnil r hr
    by_contra hlt
    have hc : hasCand head records r.record_id :=
      ⟨r, hr, rfl, by omega⟩
    have := get_recVersionsHead head records r.record_id
    rw [hnil, if_pos hc] at this
    exact Option.noConfusion this
  · intro hall
    unfold recVersionsHead
    have haux : ∀ (rs : List RecordRef),
        (∀ r ∈ rs, r.record_version ≤ RecordArena.fetchRecordVersion head r.record_id) →
        ∀ (m : RecordVersionMap),
          rs.foldl
            (fun m r =>
              if RecordArena.fetchRecordVersion head r.record_id < r.record_version then
                RecordVersionMap.emplace m r.record_id 0
              else m)
            m = m := by
      intro rs hrs
      induction rs with
      | nil => intro m; rfl
      | cons r rest ih =>
        intro m
        simp only [List.foldl_cons]
        rw [if_neg (by have := hrs r (by simp); omega)]
        exact ih (fun x hx => hrs x (by simp [hx])) m
    exact haux records hall []

/-- A record at or below the currently known version is skipped by the
reference step. -/
theorem specStep_skip (snap : PartitionSnapshot) (st : RecordArena × List Nat)
    (r : RecordRef) (h : ¬ knownVersion st.1 snap r.record_id < r.record_version) :
    specStep snap st r = st := by
  unfold specStep
  rw [if_neg h]

/-- When every incoming record is at or below the head arena's version, the
reference fold is the identity over any arena at least as new as the head. -/
theorem specFold_id (snap : PartitionSnapshot) :
    ∀ (records : List RecordRef) (a : RecordArena) (ids : List Nat),
      (∀ r ∈ records,
        r.record_version ≤
          RecordArena.fetchRecordVersion snap.head_arena r.record_id) →
      (∀ id, RecordArena.fetchRecordVersion snap.head_arena id ≤
        RecordArena.fetchRecordVersion a id) →
      records.foldl (specStep snap) (a, ids) = (a, ids) := by
  intro records
  induction records with
  | nil => intro a ids _ _; rfl
  | cons r rs ih =>
    intro a ids hall hmono
    simp only [List.foldl_cons]
    have h1 := hall r (by simp)
    have h2 := hmono r.record_id
    rw [specStep_skip snap (a, ids) r
      (show ¬ knownVersion a snap r.record_id < r.record_version by
        unfold knownVersion; omega)]
    exact ih a ids (fun x hx => hall x (by simp [hx])) hmono

/-- A record strictly above the currently known version is retained by the
reference step, stored with `is_update` reflecting a non-zero version outside
the head arena. -/
theorem specStep_insert (snap : PartitionSnapshot) (st : RecordArena × List Nat)
    (r : RecordRef) (h : knownVersion st.1 snap r.record_id < r.record_version) :
    specStep snap st r =
      ((RecordArena.insertRecord st.1
          { r with is_update := r.is_update || decide (0 < baseKnown snap r.record_id) }).1,
        setInsert st.2 r.record_id) := by
  unfold specStep
  rw [if_pos h]

/-- The insert loop of `insertRecords`, run with the known-version map built
for the full batch, coincides with the reference fold on any suffix of the
batch, over any arena at least as new as the head arena. -/
theorem insertLoop_eq_spec (snap : PartitionSnapshot) (records₀ : List RecordRef) :
    ∀ (records : List RecordRef) (a : RecordArena) (ids : List Nat),
      (∀ r ∈ records, r ∈ records₀) →
      (∀ id, RecordArena.fetchRecordVersion snap.head_arena id ≤
        RecordArena.fetchRecordVersion a id) →
      insertLoop (rvOf snap records₀) records (a, ids) =
        records.foldl (specStep snap) (a, ids) := by
  intro records
  induction records with
  | nil => intro a ids _ _; rfl
  | cons r rs ih =>
    intro a ids hsub hmono
    have hr0 : r ∈ records₀ := hsub r (by simp)
    have hsub2 : ∀ x ∈ rs, x ∈ records₀ := fun x hx => hsub x (by simp [hx])
    simp only [insertLoop, List.foldl_cons]
    rw [get_rvOf]
    by_cases hcand : hasCand snap.head_arena records₀ r.record_id
    · rw [if_pos hcand]
      simp only [Option.getD_some]
      by_cases hb : baseKnown snap r.record_id > 0
      · simp only [if_pos hb]
        have hspec :
            ({ r with is_update := r.is_update || decide (0 < baseKnown snap r.record_id) } :
              RecordRef) = { r with is_update := true } := by
          rw [decide_eq_true hb, Bool.or_true]
        by_cases hskip : r.record_version ≤ baseKnown snap r.record_id
        · rw [if_pos hskip]
          rw [specStep_skip snap (a, ids) r
            (show ¬ knownVersion a snap r.record_id < r.record_version by
              unfold knownVersion; omega)]
          exact ih a ids hsub2 hmono
        · rw [if_neg hskip]
          by_cases hins : RecordArena.fetchRecordVersion a r.record_id < r.record_version
          · rw [specStep_insert snap (a, ids) r
              (show knownVersion a snap r.record_id < r.record_version by
                unfold knownVersion; exact Nat.max_lt.mpr ⟨hins, by omega⟩)]
            rw [hspec]
            have h2 : (RecordArena.insertRecord a { r with is_update := true }).2 = true := by
              unfold RecordArena.insertRecord
              rw [if_pos (show RecordArena.fetchRecordVersion a
                ({ r with is_update := true } : RecordRef).record_id <
                ({ r with is_update := true } : RecordRef).record_version from hins)]
            rw [if_pos h2]
            exact ih (RecordArena.insertRecord a { r with is_update := true }).1
              (setInsert ids r.record_id) hsub2
              (fun id => Nat.le_trans (hmono id) (fetch_insertRecord_mono a _ id))
          · have hno : RecordArena.insertRecord a { r with is_update := true } = (a, false) := by
              unfold RecordArena.insertRecord
              rw [if_neg (show ¬ RecordArena.fetchRecordVersion a
                ({ r with is_update := true } : RecordRef).record_id <
                ({ r with is_update := true } : RecordRef).record_version from hins)]
            rw [hno]
            rw [if_neg Bool.false_ne_true]
            rw [specStep_skip snap (a, ids) r
              (show ¬ knownVersion a snap r.record_id < r.record_version by
                unfold knownVersion; omega)]
            exact ih a ids hsub2 hmono
      · simp only [if_neg hb]
        have hspec :
            ({ r with is_update := r.is_update || decide (0 < baseKnown snap r.record_id) } :
              RecordRef) = r := by
          rw [decide_eq_false hb, Bool.or_false]
        by_cases hskip : r.record_version ≤ baseKnown snap r.record_id
        · rw [if_pos hskip]
          rw [specStep_skip snap (a, ids) r
            (show ¬ knownVersion a snap r.record_id < r.record_version by
              unfold knownVersion; omega)]
          exact ih a ids hsub2 hmono
        · rw [if_neg hskip]
          by_cases hins : RecordArena.fetchRecordVersion a r.record_id < r.record_version
          · rw [specStep_insert snap (a, ids) r
              (show knownVersion a snap r.record_id < r.record_version by
                unfold knownVersion; exact Nat.max_lt.mpr ⟨hins, by omega⟩)]
            rw [hspec]
            have h2 : (RecordArena.insertRecord a r).2 = true := by
              unfold RecordArena.insertRecord
              rw [if_pos hins]
            rw [if_pos h2]
            exact ih (RecordArena.insertRecord a r).1 (setInsert ids r.record_id) hsub2
              (fun id => Nat.le_trans (hmono id) (fetch_insertRecord_mono a r id))
          · have hno : RecordArena.insertRecord a r = (a, false) := by
              unfold RecordArena.insertRecord
              rw [if_neg hins]
            rw [hno]
            rw [if_neg Bool.false_ne_true]
            rw [specStep_skip snap (a, ids) r
              (show ¬ knownVersion a snap r.record_id < r.record_version by
                unfold knownVersion; omega)]
            exact ih a ids hsub2 hmono
    · rw [if_neg hcand]
      simp only [Option.getD_none]
      simp only [if_neg (Nat.lt_irrefl 0)]
      have hle : r.record_version ≤
          RecordArena.fetchRecordVersion snap.head_arena r.record_id := by
        by_contra hgt
        exact hcand ⟨r, hr0, rfl, by omega⟩
      have hha := hmono r.record_id
      by_cases hz : r.record_version ≤ 0
      · rw [if_pos hz]
        rw [specStep_skip snap (a, ids) r
          (show ¬ knownVersion a snap r.record_id < r.record_version by omega)]
        exact ih a ids hsub2 hmono
      · rw [if_neg hz]
        have hins : ¬ RecordArena.fetchRecordVersion a r.record_id < r.record_version := by
          omega
        have hno : RecordArena.insertRecord a r = (a, false) := by
          unfold RecordArena.insertRecord
          rw [if_neg hins]
        rw [hno]
        rw [if_neg Bool.false_ne_true]
        rw [specStep_skip snap (a, ids) r
          (show ¬ knownVersion a snap r.record_id < r.record_version by
            unfold knownVersion; omega)]
        exact ih a ids hsub2 hmono

/-- `insertRecords` on a non-frozen partition computes exactly the reference
model: records processed in order, each retained iff its version strictly
exceeds the version currently known for its id. -/
theorem insertRecords_eq_spec (snap : PartitionSnapshot) (records : List RecordRef) :
    insertRecords false snap records = .ok (specInsertRecords snap records) := by
  simp only [insertRecords]
  rw [if_neg Bool.false_ne_true]
  by_cases hemp : (rvOf snap records).isEmpty
  · rw [if_pos hemp]
    have hnil : recVersionsHead snap.head_arena records = [] := by
      have hlen := rvOf_length snap records
      rw [List.isEmpty_iff] at hemp
      rw [hemp] at hlen
      exact List.eq_nil_of_length_eq_zero hlen.symm
    have hall := (recVersionsHead_eq_nil snap.head_arena records).mp hnil
    unfold specInsertRecords
    rw [specFold_id snap records snap.head_arena [] hall (fun id => Nat.le_refl _)]
  · rw [if_neg hemp]
    rw [insertLoop_eq_spec snap records records snap.head_arena []
      (fun r hr => hr) (fun id => Nat.le_refl _)]
    rfl

/-- C1 (counterexample to the stated claim): with the head arena holding
`{id 1, version 4}` and nothing on disk, the known version of id 1 is the
non-zero 4; inserting `{id 1, version 5}` retains the record, yet it is
stored with `is_update = false` — the writer seeds the lookup map with 0 and
never folds the head arena version itself into it, so a prior version living
only in the head arena does not set `is_update`. -/
theorem claim_C1_counterexample :
    knownVersion ([⟨1, 4, false⟩] : RecordArena) ⟨[⟨1, 4, false⟩], none, []⟩ 1 = 4 ∧
    insertRecords false ⟨[⟨1, 4, false⟩], none, []⟩ [⟨1, 5, false⟩] =
      .ok (⟨[⟨1, 5, false⟩], none, []⟩, [1]) :=
  ⟨rfl, rfl⟩

/-- C1 (amended): on a non-frozen partition, `insert_records` behaves as the
sequential reference model: a record is retained and its id added to the
returned set exactly when its version strictly exceeds the highest version
across the current head arena, the compacting arena and the on-disk sidecar
indexes; a retained record has `is_update` set exactly when a non-zero
version existed in the compacting arena or an on-disk index (a prior version
living only in the head arena does not set it).  In particular inserting
`{id 1, v 5}, {id 1, v 3}, {id 2, v 1}` into an empty partition returns
inserted ids `{1, 2}`. -/
theorem claim_C1 (snap : PartitionSnapshot) (records : List RecordRef) :
    insertRecords false snap records = .ok (specInsertRecords snap records) ∧
    insertRecords false ⟨[], none, []⟩ [⟨1, 5, false⟩, ⟨1, 3, false⟩, ⟨2, 1, false⟩] =
      .ok (⟨[⟨2, 1, false⟩, ⟨1, 5, false⟩], none, []⟩, [1, 2]) :=
  ⟨insertRecords_eq_spec snap records, rfl⟩

/-- C2 (counterexample to the stated claim): head arena `{id 1, version 4}`;
the batch `{id 1, v 5}, {id 1, v 3}` contains the record `{id 1, v 3}` whose
version 3 is at or below the known version 4 for id 1, yet the returned
inserted-id set is `{1}` — the id appears because the other record of the
same batch was inserted. -/
theorem claim_C2_counterexample :
    3 ≤ knownVersion ([⟨1, 4, false⟩] : RecordArena) ⟨[⟨1, 4, false⟩], none, []⟩ 1 ∧
    insertRecords false ⟨[⟨1, 4, false⟩], none, []⟩ [⟨1, 5, false⟩, ⟨1, 3, false⟩] =
      .ok (⟨[⟨1, 5, false⟩], none, []⟩, [1]) :=
  ⟨by decide, rfl⟩

/-- C2 (amended): a record whose version is at or below the version known at
the point it is processed is a no-op: dropping it from the batch leaves the
result of `insert_records` (arena, size counter and inserted-id set alike)
unchanged, and the reference step for it is the identity; its id may still
appear in the returned set when another record of the same call with a
higher version was inserted. -/
theorem claim_C2 (snap : PartitionSnapshot) (pre : List RecordRef) (r : RecordRef)
    (post : List RecordRef)
    (h : r.record_version ≤
      knownVersion (pre.foldl (specStep snap) (snap.head_arena, [])).1 snap r.record_id) :
    insertRecords false snap (pre ++ r :: post) = insertRecords false snap (pre ++ post) ∧
    (pre ++ [r]).foldl (specStep snap) (snap.head_arena, []) =
      pre.foldl (specStep snap) (snap.head_arena, []) := by
  have hstep : specStep snap (pre.foldl (specStep snap) (snap.head_arena, [])) r =
      pre.foldl (specStep snap) (snap.head_arena, []) :=
    specStep_skip snap _ r (by omega)
  constructor
  · rw [insertRecords_eq_spec, insertRecords_eq_spec]
    unfold specInsertRecords
    rw [List.foldl_append, List.foldl_append, List.foldl_cons, hstep]
  · rw [List.foldl_append]
    simp only [List.foldl_cons, List.foldl_nil]
    exact hstep

/-- C2 witness: after processing `{id 1, v 5}` over the head arena
`{id 1, v 4}`, the record `{id 1, v 3}` is known-stale and dropping it does
not change the call's result. -/
theorem claim_C2_witness :
    (3 : Nat) ≤ knownVersion
      (([⟨1, 5, false⟩] : List RecordRef).foldl
        (specStep ⟨[⟨1, 4, false⟩], none, []⟩) ([⟨1, 4, false⟩], [])).1
      ⟨[⟨1, 4, false⟩], none, []⟩ 1 ∧
    (insertRecords false ⟨[⟨1, 4, false⟩], none, []⟩
        (([⟨1, 5, false⟩] : List RecordRef) ++ ⟨1, 3, false⟩ :: []) =
      insertRecords false ⟨[⟨1, 4, false⟩], none, []⟩
        (([⟨1, 5, false⟩] : List RecordRef) ++ []) ∧
    (([⟨1, 5, false⟩] : List RecordRef) ++ ([⟨1, 3, false⟩] : List RecordRef)).foldl
        (specStep ⟨[⟨1, 4, false⟩], none, []⟩) ([⟨1, 4, false⟩], []) =
      ([⟨1, 5, false⟩] : List RecordRef).foldl
        (specStep ⟨[⟨1, 4, false⟩], none, []⟩) ([⟨1, 4, false⟩], [])) := by
  refine ⟨by decide, ?_⟩
  exact claim_C2 ⟨[⟨1, 4, false⟩], none, []⟩ [⟨1, 5, false⟩] ⟨1, 3, false⟩ [] (by decide)

end LSMPartitionWriter

namespace ReduceTask

/-- The shard-allocation loop appends `n` identical shards and returns the
`n` consecutive indices starting at the previous list length. -/
theorem appendShards_spec (in_indexes : List Nat) :
    ∀ (n : Nat) (shards : List MapReduceTaskShard),
      appendShards in_indexes n shards =
        (shards ++ List.replicate n ⟨in_indexes⟩, List.range' shards.length n) := by
  intro n
  induction n with
  | zero =>
    intro shards
    simp [appendShards]
  | succ n ih =>
    intro shards
    simp only [appendShards, ih, List.replicate_succ, List.range'_succ, List.length_append,
      List.length_singleton, List.append_assoc, List.singleton_append]

/-- Appending shards whose dependencies all point below the current length
preserves invariant I6. -/
theorem shardListOk_append (l : List MapReduceTaskShard) (n : Nat) (deps : List Nat)
    (hok : shardListOk l) (hd : ∀ d ∈ deps, d < l.length) :
    shardListOk (l ++ List.replicate n ⟨deps⟩) := by
  intro i h d hdm
  simp only [List.get_eq_getElem] at hdm
  by_cases hi : i < l.length
  · rw [List.getElem_append_left hi] at hdm
    have := hok i hi
    simp only [List.get_eq_getElem] at this
    exact this d hdm
  · rw [List.getElem_append_right (by omega)] at hdm
    rw [List.getElem_replicate] at hdm
    have := hd d hdm
    omega

mutual

/-- Build-pass invariant for a single task: the shard list grows by
appending, the produced indices point into the appended region, and
invariant I6 is preserved. -/
theorem build_spec (t : MapReduceTask) (shards : List MapReduceTaskShard) :
    (∃ ext, (build t shards).1 = shards ++ ext) ∧
    (∀ o ∈ (build t shards).2, shards.length ≤ o ∧ o < (build t shards).1.length) ∧
    (shardListOk shards → shardListOk (build t shards).1) :=
  match t with
  | .reduce sources n => by
    obtain ⟨⟨e1, hext⟩, hbnd, hok⟩ := buildSources_spec sources shards
    simp only [build, appendShards_spec]
    refine ⟨⟨e1 ++ List.replicate n ⟨(buildSources sources shards).2⟩, by
      rw [hext, List.append_assoc]⟩, ?_, ?_⟩
    · intro o ho
      rw [List.mem_range'_1] at ho
      have hlen : shards.length ≤ (buildSources sources shards).1.length := by
        rw [hext]
        simp
      simp only [List.length_append, List.length_replicate]
      omega
    · intro hsok
      have hdeps : ∀ d ∈ (buildSources sources shards).2,
          d < (buildSources sources shards).1.length :=
        fun d hd => (hbnd d hd).2
      exact shardListOk_append _ n _ (hok hsok) hdeps

/-- Build-pass invariant for a source list, concatenating produced indices. -/
theorem buildSources_spec (ts : List MapReduceTask) (shards : List MapReduceTaskShard) :
    (∃ ext, (buildSources ts shards).1 = shards ++ ext) ∧
    (∀ o ∈ (buildSources ts shards).2,
      shards.length ≤ o ∧ o < (buildSources ts shards).1.length) ∧
    (shardListOk shards → shardListOk (buildSources ts shards).1) :=
  match ts with
  | [] => ⟨⟨[], by simp [buildSources]⟩, by simp [buildSources], by
      intro h
      simpa [buildSources] using h⟩
  | t :: ts => by
    obtain ⟨⟨e1, hext1⟩, hbnd1, hok1⟩ := build_spec t shards
    obtain ⟨⟨e2, hext2⟩, hbnd2, hok2⟩ := buildSources_spec ts (build t shards).1
    simp only [buildSources]
    have hlen1 : shards.length ≤ (build t shards).1.length := by
      rw [hext1]
      simp
    have hlen2 : (build t shards).1.length ≤
        (buildSources ts (build t shards).1).1.length := by
      rw [hext2]
      simp
    refine ⟨⟨e1 ++ e2, by rw [hext2, hext1, List.append_assoc]⟩, ?_, ?_⟩
    · intro o ho
      rw [List.mem_append] at ho
      rcases ho with ho | ho
      · have := hbnd1 o ho
        omega
      · have := hbnd2 o ho
        omega
    · intro hsok
      exact hok2 (hok1 hsok)

end

/-- C5 (invariant I6): `build` preserves topological ordering of the shard
list: every shard's dependency indices are strictly less than its own
index. -/
theorem claim_C5 (t : MapReduceTask) (shards : List MapReduceTaskShard)
    (h : shardListOk shards) : shardListOk (build t shards).1 :=
  (build_spec t shards).2.2 h

/-- C5 witness: the two-source, three-shard reduce task built from an empty
shard list. -/
theorem claim_C5_witness :
    shardListOk ([] : List MapReduceTaskShard) ∧
    shardListOk (build (.reduce [.reduce [] 2, .reduce [] 2] 3) []).1 :=
  ⟨by decide, claim_C5 (.reduce [.reduce [] 2, .reduce [] 2] 3) [] (by decide)⟩

/-- C6: `build` on a reduce task first builds its sources in order into a
flat dependency list, then appends exactly `num_shards` shards whose
dependencies all equal that list; in particular two 2-shard sources and
`num_shards = 3` give source shards 0..3 and reduce shards 4..6, each
depending on `[0, 1, 2, 3]`. -/
theorem claim_C6 :
    (∀ (sources : List MapReduceTask) (n : Nat) (shards : List MapReduceTaskShard),
      build (.reduce sources n) shards =
        ((buildSources sources shards).1 ++
            List.replicate n ⟨(buildSources sources shards).2⟩,
          List.range' (buildSources sources shards).1.length n)) ∧
    build (.reduce [.reduce [] 2, .reduce [] 2] 3) [] =
      ([⟨[]⟩, ⟨[]⟩, ⟨[]⟩, ⟨[]⟩, ⟨[0, 1, 2, 3]⟩, ⟨[0, 1, 2, 3]⟩, ⟨[0, 1, 2, 3]⟩],
        [4, 5, 6]) :=
  ⟨fun sources n shards => by simp only [build, appendShards_spec], by decide⟩

/-- C8: `executeRemote` maps status 204 to no output, status 201 to a result
located on the contacted host with the id decoded from the hex body, and
raises exactly on every other status code. -/
theorem claim_C8 (host : ReplicaRef) (res : HTTPResponse) :
    (res.statusCode = 204 → executeRemote host res = .ok none) ∧
    (res.statusCode = 201 →
      executeRemote host res = .ok (some ⟨host, fromHexString res.body⟩)) ∧
    ((∃ e, executeRemote host res = .error e) ↔
      res.statusCode ≠ 201 ∧ res.statusCode ≠ 204) := by
  unfold executeRemote
  refine ⟨fun h => by rw [if_pos h], fun h => ?_, ?_⟩
  · rw [if_neg (by rw [h]; decide), if_neg (by rw [h]; exact fun hc => hc rfl)]
  · by_cases h4 : res.statusCode = 204
    · rw [if_pos h4]
      simp [h4]
    · rw [if_neg h4]
      by_cases h1 : res.statusCode = 201
      · rw [if_neg (by rw [h1]; exact fun hc => hc rfl)]
        simp [h1]
      · rw [if_pos h1]
        exact ⟨fun _ => ⟨h1, h4⟩, fun _ => ⟨_, rfl⟩⟩

/-- C8 witness: concrete 204, 201, and 500 responses. -/
theorem claim_C8_witness :
    executeRemote ⟨"B"⟩ ⟨204, ""⟩ = .ok none ∧
    executeRemote ⟨"B"⟩ ⟨201, "aabb"⟩ = .ok (some ⟨⟨"B"⟩, fromHexString "aabb"⟩) ∧
    (∃ e, executeRemote ⟨"B"⟩ ⟨500, "boom"⟩ = .error e) :=
  ⟨(claim_C8 ⟨"B"⟩ ⟨204, ""⟩).1 rfl,
   (claim_C8 ⟨"B"⟩ ⟨201, "aabb"⟩).2.1 rfl,
   (claim_C8 ⟨"B"⟩ ⟨500, "boom"⟩).2.2.2 (by decide)⟩

/-- If every host throws, the replica loop raises the aggregate error whose
message joins the accumulated and per-host messages. -/
theorem executeLoop_all_err
    (remote : ReplicaRef → Except String (Option MapReduceShardResult)) :
    ∀ (hosts : List ReplicaRef) (errors : List String),
      (∀ x ∈ hosts, ∃ e, remote x = .error e) →
      executeLoop remote hosts errors =
        .error ("MapTableTask::execute failed: " ++
          String.intercalate ", " (errors ++ hosts.map (fun x => errMsg (remote x)))) := by
  intro hosts
  induction hosts with
  | nil =>
    intro errors _
    simp [executeLoop]
  | cons h hs ih =>
    intro errors hall
    obtain ⟨e, he⟩ := hall h (by simp)
    simp only [executeLoop, he]
    rw [ih (errors ++ [e]) (fun x hx => hall x (by simp [hx]))]
    simp [errMsg, he]

/-- The first host that does not throw decides the loop's result. -/
theorem executeLoop_first_ok
    (remote : ReplicaRef → Except String (Option MapReduceShardResult))
    (h : ReplicaRef) (post : List ReplicaRef) (v : Option MapReduceShardResult)
    (hh : remote h = .ok v) :
    ∀ (pre : List ReplicaRef) (errors : List String),
      (∀ x ∈ pre, ∃ e, remote x = .error e) →
      executeLoop remote (pre ++ h :: post) errors = .ok v := by
  intro pre
  induction pre with
  | nil =>
    intro errors _
    simp [executeLoop, hh]
  | cons p ps ih =>
    intro errors hall
    obtain ⟨e, he⟩ := hall p (by simp)
    simp only [List.cons_append, executeLoop, he]
    exact ih (errors ++ [e]) (fun x hx => hall x (by simp [hx]))

/-- Hosts after the first non-throwing host are never contacted. -/
theorem contactedHosts_first_ok
    (remote : ReplicaRef → Except String (Option MapReduceShardResult))
    (h : ReplicaRef) (post : List ReplicaRef) (v : Option MapReduceShardResult)
    (hh : remote h = .ok v) :
    ∀ (pre : List ReplicaRef),
      (∀ x ∈ pre, ∃ e, remote x = .error e) →
      contactedHosts remote (pre ++ h :: post) = pre ++ [h] := by
  intro pre
  induction pre with
  | nil =>
    intro _
    simp [contactedHosts, hh]
  | cons p ps ih =>
    intro hall
    obtain ⟨e, he⟩ := hall p (by simp)
    simp only [List.cons_append, contactedHosts, he, List.append_eq]
    rw [ih (fun x hx => hall x (by simp [hx]))]

/-- C7: `execute` walks the replica list in order; hosts that throw are
skipped with their messages retained, the first host that returns (a result
or none) ends the iteration with no later host contacted, and if every host
throws the raised runtime error joins the per-host messages. -/
theorem claim_C7 (remote : ReplicaRef → Except String (Option MapReduceShardResult)) :
    (∀ (pre : List ReplicaRef) (h : ReplicaRef) (post : List ReplicaRef)
        (v : Option MapReduceShardResult),
      (∀ x ∈ pre, ∃ e, remote x = .error e) → remote h = .ok v →
      execute (pre ++ h :: post) remote = .ok v ∧
      contactedHosts remote (pre ++ h :: post) = pre ++ [h]) ∧
    (∀ hosts : List ReplicaRef,
      (∀ x ∈ hosts, ∃ e, remote x = .error e) →
      execute hosts remote =
        .error ("MapTableTask::execute failed: " ++
          String.intercalate ", " (hosts.map (fun x => errMsg (remote x))))) := by
  constructor
  · intro pre h post v hpre hh
    exact ⟨executeLoop_first_ok remote h post v hh pre [] hpre,
      contactedHosts_first_ok remote h post v hh pre hpre⟩
  · intro hosts hall
    have := executeLoop_all_err remote hosts [] hall
    simpa [execute] using this

/-- C7 witness (P6): hosts `[A, B, C]` where A throws and B answers; the
result is B's and C is not contacted; and over `[A, C]`, where both throw,
the error joins both messages. -/
theorem claim_C7_witness :
    (execute [⟨"A"⟩, ⟨"B"⟩, ⟨"C"⟩]
        (fun hst => if hst.addr = "A" then .error "A failed"
          else if hst.addr = "B" then .ok (some ⟨⟨"B"⟩, 201⟩)
          else .error "C failed") = .ok (some ⟨⟨"B"⟩, 201⟩) ∧
      contactedHosts
        (fun hst => if hst.addr = "A" then .error "A failed"
          else if hst.addr = "B" then .ok (some ⟨⟨"B"⟩, 201⟩)
          else .error "C failed") [⟨"A"⟩, ⟨"B"⟩, ⟨"C"⟩] = [⟨"A"⟩, ⟨"B"⟩]) ∧
    execute [⟨"A"⟩, ⟨"C"⟩]
        (fun hst => if hst.addr = "A" then .error "A failed"
          else if hst.addr = "B" then .ok (some ⟨⟨"B"⟩, 201⟩)
          else .error "C failed") =
      .error "MapTableTask::execute failed: A failed, C failed" := by
  constructor
  · have := (claim_C7 (fun hst => if hst.addr = "A" then .error "A failed"
      else if hst.addr = "B" then .ok (some ⟨⟨"B"⟩, 201⟩)
      else .error "C failed")).1 [⟨"A"⟩] ⟨"B"⟩ [⟨"C"⟩] (some ⟨⟨"B"⟩, 201⟩)
      (by
        intro x hx
        rw [List.mem_singleton] at hx
        subst hx
        exact ⟨"A failed", rfl⟩)
      rfl
    simpa using this
  · have := (claim_C7 (fun hst => if hst.addr = "A" then .error "A failed"
      else if hst.addr = "B" then .ok (some ⟨⟨"B"⟩, 201⟩)
      else .error "C failed")).2 [⟨"A"⟩, ⟨"C"⟩]
      (by
        intro x hx
        rw [List.mem_cons, List.mem_singleton] at hx
        rcases hx with hx | hx <;>
          · subst hx
            first
              | exact ⟨"A failed", rfl⟩
              | exact ⟨"C failed", rfl⟩)
    simpa using this

/-- C10 (implicit): with an empty replica list, `execute` contacts no host
and raises the aggregate runtime error over an empty cause list. -/
theorem claim_C10 (remote : ReplicaRef → Except String (Option MapReduceShardResult)) :
    execute [] remote = .error "MapTableTask::execute failed: " ∧
    contactedHosts remote [] = [] :=
  ⟨rfl, rfl⟩

end ReduceTask

end zbase
